import Mathlib

/-!
Shallow embedding of the snowline chart library core (zoom model, visible-range
calculator, hit-testers, interaction state machines) and proofs about the
claims of its specification.

Modelling conventions:
* `f32` / `f64` values are modelled as exact rationals (`ℚ`).
* Rust's `as usize` cast of a float is truncation toward zero, saturating at 0
  for negative inputs; this is `ratToUsize` below.
* The `canvas::Cache` is a widget-private side effect; each embedded `update`
  returns, next to the new state and the optional `canvas::Action`, a Boolean
  recording whether `cache.clear()` was called during the transition.
* Euclidean distances are compared through their squares (`sqDist`), which is
  equivalent to the source's `sqrt`-based comparisons since `sqrt` is monotone
  on nonnegative reals: `dist ≤ 20 ↔ sqDist ≤ 400`, `dist < d ↔ sqDist < d²`.
-/

/-- Rust `as usize` on a float: truncate toward zero, negative values saturate
to `0` (for `q < 0`, `⌊q⌋ < 0` so `Int.toNat` yields `0`, matching Rust). -/
def ratToUsize (q : ℚ) : ℕ := (⌊q⌋).toNat

/-- Embeds `values.iter().fold(f64::INFINITY, |a, &b| a.min(b))` for a nonempty list
(the sources only consult the minimum of lists guarded to be nonempty). -/
def listMin : List ℚ → ℚ
  | [] => 0
  | x :: xs => xs.foldl min x

/-- Embeds `values.iter().fold(f64::NEG_INFINITY, |a, &b| a.max(b))` for a nonempty
list (the sources only consult the maximum of lists guarded to be nonempty). -/
def listMax : List ℚ → ℚ
  | [] => 0
  | x :: xs => xs.foldl max x

/-- Embeds `src/zoom.rs`: either a specific zoom level with a numeric value, or the
full view showing all available data. -/
inductive Zoom where
  | Value : ℚ → Zoom
  | Full : Zoom
deriving DecidableEq

/-- Embeds `Zoom::is_value` (`src/zoom.rs`). -/
def Zoom.is_value : Zoom → Bool
  | .Value _ => true
  | .Full => false

/-- Embeds `Zoom::is_full` (`src/zoom.rs`). -/
def Zoom.is_full : Zoom → Bool
  | .Value _ => false
  | .Full => true

/-- Embeds `Zoom::increment_with_limits` (`src/zoom.rs` lines 36-50).  From full view
it starts at `Zoom::Value(0.1)` (a hard-coded literal, not a parameter). -/
def Zoom.increment_with_limits : Zoom → ℚ → Zoom
  | .Full, _ => .Value (1/10)
  | .Value value, mx =>
      let new_value :=
        if value < 1 then min (value + 1/10) 1
        else min (value + 1) mx
      .Value new_value

/-- Embeds `Zoom::decrement_with_limits` (`src/zoom.rs` lines 53-74). -/
def Zoom.decrement_with_limits : Zoom → ℚ → Zoom
  | .Full, _ => .Full
  | .Value value, mn =>
      if value ≤ mn then .Full
      else if value ≤ 1 then
        let new_value := max (value - 1/10) mn
        if new_value ≤ mn then .Full else .Value new_value
      else .Value (max (value - 1) 1)

/-- Modelled from the spec: the numeric accessor called as `effective_zoom.value()`
by the bar widget (`src/bar_graph/mod.rs` lines 253 and 319) is missing from the
sentinel `Zoom` of `src/zoom.rs` (only the superseded scalar variant in
`src/line_graph/zoom.rs` has a `value` method). Spec §4.1 specifies
`value_or(default)`: the numeric factor, or a caller-supplied default for full
view. Every theorem below that exercises the bar widget's hit test restricts to
numeric zoom, where the result is forced; the default is irrelevant there. -/
def Zoom.value_or (z : Zoom) (default : ℚ) : ℚ :=
  match z with
  | .Value v => v
  | .Full => default

/-- Embeds `calculate_visible_range` (`src/utils/graph_state.rs` lines 15-42). -/
def calculate_visible_range (total_items : ℕ) (zoom : Zoom) (base_items : ℚ) : ℕ × ℕ :=
  let visible_count :=
    match zoom with
    | .Full => total_items
    | .Value zoom_factor =>
        if 1 ≤ zoom_factor then
          min (ratToUsize (max (base_items / zoom_factor) 5)) total_items
        else
          min (ratToUsize (base_items / zoom_factor)) total_items
  let start_index :=
    match zoom with
    | .Full => 0
    | .Value _ =>
        if total_items > visible_count then total_items - visible_count else 0
  (start_index, visible_count)

/-- Embeds `iced::Point` with rational coordinates. -/
structure PointQ where
  x : ℚ
  y : ℚ
deriving DecidableEq

/-- Embeds `iced::Rectangle` with rational coordinates. -/
structure RectangleQ where
  x : ℚ
  y : ℚ
  width : ℚ
  height : ℚ
deriving DecidableEq

/-- Embeds `Rectangle::contains`: half-open on the far edges, as in iced. -/
def RectangleQ.contains (b : RectangleQ) (p : PointQ) : Bool :=
  decide (b.x ≤ p.x) && decide (p.x < b.x + b.width) &&
  decide (b.y ≤ p.y) && decide (p.y < b.y + b.height)

/-- Embeds `mouse::Cursor`: `Available(position)` or `Unavailable`. -/
abbrev Cursor := Option PointQ

/-- Embeds `Cursor::position_in(bounds)`: the cursor position relative to the bounds
origin, when the cursor is available and over the bounds. -/
def position_in (cursor : Cursor) (bounds : RectangleQ) : Option PointQ :=
  match cursor with
  | none => none
  | some p =>
      if bounds.contains p then some ⟨p.x - bounds.x, p.y - bounds.y⟩ else none

/-- Embeds `Cursor::is_over(bounds)`. -/
def is_over (cursor : Cursor) (bounds : RectangleQ) : Bool :=
  match cursor with
  | none => false
  | some p => bounds.contains p

/-- The mouse events the two `update` implementations match on.
`WheelScrolled` carries the vertical scroll amount `y` (the sources
destructure `ScrollDelta::Lines { y, .. } | ScrollDelta::Pixels { y, .. }`
identically).  `Other` stands for every unmatched event (`_ => None`). -/
inductive MouseEvent where
  | CursorMoved
  | ButtonPressedLeft
  | WheelScrolled : ℚ → MouseEvent
  | Other
deriving DecidableEq

/-- Embeds `canvas::Action`: `publish`, `publish(..).and_capture()`, `request_redraw`. -/
inductive CanvasAction (α : Type) where
  | publish : α → CanvasAction α
  | publishCapture : α → CanvasAction α
  | request_redraw : CanvasAction α
deriving DecidableEq

/-- Embeds `utils::LineInteraction` (`src/utils/interaction.rs`). -/
inductive LineInteraction where
  | PointHovered : ℕ → LineInteraction
  | PointClicked : ℕ → LineInteraction
  | ZoomChanged : Zoom → LineInteraction
deriving DecidableEq

/-- Embeds `bar_graph::Interaction` (`src/bar_graph/mod.rs`). -/
inductive BarInteraction where
  | BarHovered : ℕ → BarInteraction
  | BarClicked : ℕ → BarInteraction
  | ZoomChanged : Zoom → BarInteraction
deriving DecidableEq

/-- Embeds `LineGraphState` (`src/line_graph/mod.rs` via `state.rs`): zoom plus the
optional hovered point index. -/
structure LineGraphState where
  zoom : Zoom
  hovered_point : Option ℕ
deriving DecidableEq

/-- Embeds `BarGraphState` (`src/bar_graph/mod.rs` lines 212-224). -/
structure BarGraphState where
  zoom : Zoom
  hovered_bar : Option ℕ
deriving DecidableEq

/-- The `LineGraph` widget configuration (`src/line_graph/mod.rs` lines 23-42),
restricted to the fields its `update` and `find_nearest_point` read.
`datapoints` are modelled post-mapper: the `ValueMapper` turns each sample into
an `f64`, so the widget's data is carried here as the mapped rational values. -/
structure LineGraph where
  base_points : ℚ
  zoom_min : ℚ
  zoom_max : ℚ
  external_zoom : Option Zoom
  datapoints : List ℚ
deriving DecidableEq

/-- Embeds `LineGraph::effective_zoom` (`src/line_graph/mod.rs` lines 209-211). -/
def LineGraph.effective_zoom (self : LineGraph) (state : LineGraphState) : Zoom :=
  self.external_zoom.getD state.zoom

/-- The `BarGraph` widget configuration (`src/bar_graph/mod.rs` lines 50-67),
restricted to the fields its `update` reads (the bar `update` never touches the
datapoints). -/
structure BarGraph where
  base_bars : ℚ
  zoom_min : ℚ
  zoom_max : ℚ
  external_zoom : Option Zoom
deriving DecidableEq

/-- Embeds `BarGraph::effective_zoom` (`src/bar_graph/mod.rs` lines 207-209). -/
def BarGraph.effective_zoom (self : BarGraph) (state : BarGraphState) : Zoom :=
  self.external_zoom.getD state.zoom

/-- Embeds `max_visible_points` as computed identically in the line chart's `draw` and
`find_nearest_point` (`src/line_graph/mod.rs` lines 332-346 and 474-486). -/
def lineMaxVisiblePoints (base_points : ℚ) (zoom : Zoom) (n : ℕ) : ℕ :=
  match zoom with
  | .Full => n
  | .Value zoom_factor =>
      if 1 ≤ zoom_factor then ratToUsize (max (base_points / zoom_factor) 5)
      else ratToUsize (min (base_points / zoom_factor) (n : ℚ))

/-- Embeds `start_index` as computed identically in the line chart's `draw` and
`find_nearest_point` (`src/line_graph/mod.rs` lines 348-361 and 488-500). -/
def lineStartIndex (zoom : Zoom) (n maxVisible : ℕ) : ℕ :=
  match zoom with
  | .Full => 0
  | .Value _ => if n > maxVisible then n - maxVisible else 0

/-- Embeds `visible_datapoints` of the line chart: the suffix of the data selected by
the zoom window (`all_datapoints.into_iter().skip(start_index)`). -/
def lineVisible (self : LineGraph) (state : LineGraphState) : List ℚ :=
  let all := self.datapoints
  let effective_zoom := self.effective_zoom state
  let maxVisible := lineMaxVisiblePoints self.base_points effective_zoom all.length
  let start := lineStartIndex effective_zoom all.length maxVisible
  all.drop start

/-- The point-placement formula of the line chart's `draw`
(`src/line_graph/mod.rs` lines 385-396): x spreads index `i` linearly over the
chart width, y maps the normalized value linearly with higher values nearer the
top. -/
def drawPointPosition (padding chart_width chart_height : ℚ) (len : ℕ) (i : ℕ)
    (value min_value value_range : ℚ) : PointQ :=
  let x := padding + ((i : ℚ) / ((max (len - 1) 1 : ℕ) : ℚ)) * chart_width
  let normalized_value := (value - min_value) / value_range
  let y := padding + chart_height - normalized_value * chart_height
  ⟨x, y⟩

/-- The point-placement formula as duplicated textually inside
`find_nearest_point` (`src/line_graph/mod.rs` lines 532-539); kept as a
separate definition so that its agreement with `drawPointPosition` is a
provable fact rather than true by construction. -/
def hitPointPosition (padding chart_width chart_height : ℚ) (len : ℕ) (i : ℕ)
    (value min_value value_range : ℚ) : PointQ :=
  let x := padding + ((i : ℚ) / ((max (len - 1) 1 : ℕ) : ℚ)) * chart_width
  let normalized_value := (value - min_value) / value_range
  let y := padding + chart_height - normalized_value * chart_height
  ⟨x, y⟩

/-- Squared Euclidean distance (`dx * dx + dy * dy`; the source takes `sqrt`
and compares against 20, we compare the square against 400, equivalently). -/
def sqDist (p q : PointQ) : ℚ := (p.x - q.x) ^ 2 + (p.y - q.y) ^ 2

/-- Position of the i-th visible point exactly as `draw` renders it. -/
def lineDrawPoint (self : LineGraph) (bounds : RectangleQ) (state : LineGraphState)
    (i : ℕ) : PointQ :=
  drawPointPosition 40 (bounds.width - 2 * 40) (bounds.height - 2 * 40)
    (lineVisible self state).length i ((lineVisible self state).getD i 0)
    (listMin (lineVisible self state))
    (listMax (lineVisible self state) - listMin (lineVisible self state))

/-- Squared distance from the cursor to the i-th visible point, computed with
the hit-test's copy of the placement formula. -/
def lineHitD2 (cursor_pos : PointQ) (padding chart_width chart_height : ℚ)
    (len : ℕ) (values : List ℚ) (min_value value_range : ℚ) (i : ℕ) : ℚ :=
  sqDist cursor_pos
    (hitPointPosition padding chart_width chart_height len i (values.getD i 0)
      min_value value_range)

/-- One step of the nearest-point scan (`src/line_graph/mod.rs` lines 532-551):
index `i` becomes the candidate when its distance is within the 20px threshold
and strictly beats the best so far (`f32::INFINITY` start = `none`). -/
def nearestStep (d2 : ℕ → ℚ) (acc : Option (ℕ × ℚ)) (i : ℕ) : Option (ℕ × ℚ) :=
  if decide (d2 i ≤ 400) &&
      (match acc with
       | none => true
       | some p => decide (d2 i < p.2)) then
    some (i, d2 i)
  else acc

/-- The full nearest-point scan over indices `0, …, n-1` in order. -/
def nearestFold (d2 : ℕ → ℚ) (n : ℕ) : Option (ℕ × ℚ) :=
  (List.range n).foldl (nearestStep d2) none

/-- Embeds `LineGraph::find_nearest_point` (`src/line_graph/mod.rs` lines 454-554). -/
def LineGraph.find_nearest_point (self : LineGraph) (cursor_pos : PointQ)
    (bounds : RectangleQ) (state : LineGraphState) : Option ℕ :=
  let padding : ℚ := 40
  let chart_width := bounds.width - 2 * padding
  if self.datapoints.isEmpty then none
  else
    let visible := lineVisible self state
    if visible.isEmpty then none
    else
      let values := visible
      if values.isEmpty then none
      else
        let min_value := listMin values
        let max_value := listMax values
        let value_range := max_value - min_value
        if value_range = 0 then none
        else
          let chart_height := bounds.height - 2 * padding
          (nearestFold
              (lineHitD2 cursor_pos padding chart_width chart_height
                visible.length values min_value value_range)
              visible.length).map Prod.fst

/-- Result of one `update` call: the (possibly mutated) widget state, the
returned `Option<canvas::Action<_>>`, and whether `cache.clear()` was called
during the transition. -/
structure LineUpdateResult where
  state : LineGraphState
  action : Option (CanvasAction LineInteraction)
  cacheCleared : Bool
deriving DecidableEq

/-- Embeds `canvas::Program::update` for the line chart
(`src/line_graph/mod.rs` lines 221-303). -/
def LineGraph.update (self : LineGraph) (state : LineGraphState)
    (event : MouseEvent) (bounds : RectangleQ) (cursor : Cursor) : LineUpdateResult :=
  match event with
  | .CursorMoved =>
      let effective_zoom := self.effective_zoom state
      if effective_zoom.is_value then
        match position_in cursor bounds with
        | some cursor_position =>
            let new_hovered := self.find_nearest_point cursor_position bounds state
            if state.hovered_point ≠ new_hovered then
              match new_hovered with
              | some point_index =>
                  ⟨⟨state.zoom, new_hovered⟩,
                    some (.publish (.PointHovered point_index)), true⟩
              | none => ⟨⟨state.zoom, new_hovered⟩, some .request_redraw, true⟩
            else ⟨state, none, false⟩
        | none =>
            if state.hovered_point.isSome then
              ⟨⟨state.zoom, none⟩, some .request_redraw, true⟩
            else ⟨state, none, false⟩
      else
        if state.hovered_point.isSome then
          ⟨⟨state.zoom, none⟩, some .request_redraw, true⟩
        else ⟨state, none, false⟩
  | .ButtonPressedLeft =>
      match position_in cursor bounds with
      | some cursor_position =>
          match self.find_nearest_point cursor_position bounds state with
          | some point_index =>
              ⟨state, some (.publish (.PointClicked point_index)), false⟩
          | none => ⟨state, none, false⟩
      | none => ⟨state, none, false⟩
  | .WheelScrolled y =>
      if is_over cursor bounds then
        if self.external_zoom.isNone then
          let new_zoom :=
            if 0 ≤ y then state.zoom.increment_with_limits self.zoom_max
            else state.zoom.decrement_with_limits self.zoom_min
          if new_zoom ≠ state.zoom then
            ⟨⟨new_zoom, state.hovered_point⟩,
              some (.publishCapture (.ZoomChanged new_zoom)), true⟩
          else ⟨state, none, false⟩
        else ⟨state, none, false⟩
      else ⟨state, none, false⟩
  | .Other => ⟨state, none, false⟩

/-- Embeds `visible_bars` of the bar chart (`src/bar_graph/mod.rs` line 253):
`(self.base_bars * effective_zoom.value()) as usize`. -/
def barVisibleBars (base_bars : ℚ) (zoom_factor : ℚ) : ℕ :=
  ratToUsize (base_bars * zoom_factor)

/-- Embeds `bar_index` of the bar chart's hit test (`src/bar_graph/mod.rs` lines
254-256): `(cursor_position.x / (bounds.width / visible_bars)) as usize`. -/
def barHitIndex (cursor_x width : ℚ) (visible_bars : ℕ) : ℕ :=
  ratToUsize (cursor_x / (width / (visible_bars : ℚ)))

/-- Embeds the bar chart draw's visible-window selection
(`src/bar_graph/mod.rs` line 345): the bars drawn are
`datapoints.iter().take(visible_bars)` — the first `visible_bars` datapoints,
a prefix of the data, with no start offset. -/
def barDrawnWindow (datapoints : List ℚ) (visible_bars : ℕ) : List ℚ :=
  datapoints.take visible_bars

/-- Result of one bar-chart `update` call, with the cache-clear flag (the bar
`update` contains no `cache.clear()` call at all). -/
structure BarUpdateResult where
  state : BarGraphState
  action : Option (CanvasAction BarInteraction)
  cacheCleared : Bool
deriving DecidableEq

/-- Embeds `canvas::Program::update` for the bar chart
(`src/bar_graph/mod.rs` lines 242-303).  Note: no branch clears the cache, the
wheel branch reads `state.zoom` (not the effective zoom) and never consults
`external_zoom`, and it publishes with plain `publish` (no capture). -/
def BarGraph.update (self : BarGraph) (state : BarGraphState)
    (event : MouseEvent) (bounds : RectangleQ) (cursor : Cursor) : BarUpdateResult :=
  match event with
  | .CursorMoved =>
      match position_in cursor bounds with
      | some cursor_position =>
          let effective_zoom := self.effective_zoom state
          let visible_bars := barVisibleBars self.base_bars (effective_zoom.value_or 1)
          let bar_index := barHitIndex cursor_position.x bounds.width visible_bars
          if bar_index < visible_bars then
            if state.hovered_bar ≠ some bar_index then
              ⟨⟨state.zoom, some bar_index⟩,
                some (.publish (.BarHovered bar_index)), false⟩
            else ⟨state, none, false⟩
          else
            if state.hovered_bar.isSome then ⟨⟨state.zoom, none⟩, none, false⟩
            else ⟨state, none, false⟩
      | none =>
          if state.hovered_bar.isSome then ⟨⟨state.zoom, none⟩, none, false⟩
          else ⟨state, none, false⟩
  | .ButtonPressedLeft =>
      match state.hovered_bar with
      | some bar_index => ⟨state, some (.publish (.BarClicked bar_index)), false⟩
      | none => ⟨state, none, false⟩
  | .WheelScrolled y =>
      if is_over cursor bounds then
        let new_zoom :=
          if 0 < y then state.zoom.increment_with_limits self.zoom_max
          else state.zoom.decrement_with_limits self.zoom_min
        if new_zoom ≠ state.zoom then
          ⟨⟨new_zoom, state.hovered_bar⟩,
            some (.publish (.ZoomChanged new_zoom)), false⟩
        else ⟨state, none, false⟩
      else ⟨state, none, false⟩
  | .Other => ⟨state, none, false⟩

/-- Modelled from the spec: the binning/aggregation engine configured through
`BarGraph::bins` / `BarGraph::bin_aggregator` and `BinAggregator` is referenced
by `examples/bar_graph.rs` but its implementation is not present under `src/`;
spec §4.3 defines the aggregator set {Average, Sum, Max}. -/
inductive BinAggregator where
  | Average
  | Sum
  | Max
deriving DecidableEq

/-- Modelled from the spec (§4.3): contiguous chunks of the given width, the
last chunk possibly shorter.  Fueled by the list length (the engine only ever
chunks with width ≥ 1, where the fuel suffices). -/
def binChunksAux : ℕ → ℕ → List ℚ → List (List ℚ)
  | 0, _, _ => []
  | _, _, [] => []
  | fuel + 1, width, l => l.take width :: binChunksAux fuel width (l.drop width)

/-- Modelled from the spec (§4.3): split a slice into bins of the given width. -/
def binChunks (width : ℕ) (l : List ℚ) : List (List ℚ) :=
  binChunksAux l.length width l

/-- Modelled from the spec (§4.3): the per-bin reduction.  Average divides by
the sub-slice length (not the nominal bin width); Max folds with a `-infinity`
seed, which on the nonempty slices the engine produces equals the head-seeded
fold used here. -/
def BinAggregator.aggregate : BinAggregator → List ℚ → ℚ
  | .Average, l => l.sum / (l.length : ℚ)
  | .Sum, l => l.sum
  | .Max, l => listMax l

/-- Modelled from the spec (§4.3, §7): bin count
`K = min(configured_bins, max(1, M))` with a zero configured bin count
defensively clamped to 1, bin width `ceil(M / K)`, aggregator applied per bin
over its raw sub-slice, outputs in original order; an empty slice yields no
bins. -/
def binAggregate (agg : BinAggregator) (configured_bins : ℕ)
    (visible : List ℚ) : List ℚ :=
  let M := visible.length
  if M = 0 then []
  else
    let K := max 1 (min configured_bins M)
    let width := (M + K - 1) / K
    (binChunks width visible).map agg.aggregate

/-- Rounding to the nearest integer (as a saturating-at-0 count), used only to
state the claim's `round(B / z)` formula for comparison against the code. -/
def ratRound (q : ℚ) : ℕ := (round q).toNat

/-- The visible count exactly as claim C4 words it: `max(5, round(B / z))`
when `z ≥ 1.0` and `min(N, round(B / z))` when `z < 1.0`.  This definition
follows the claim's words (not the source) and exists only to be compared with
the code's computation. -/
def claimVisibleCount (N : ℕ) (z B : ℚ) : ℕ :=
  if 1 ≤ z then max 5 (ratRound (B / z)) else min N (ratRound (B / z))

/-- One increment step from a numeric value stays at or below the configured
maximum whenever that maximum is at least 1. -/
lemma increment_step_le (mx v : ℚ) (hmx : 1 ≤ mx) :
    ∃ w, (Zoom.Value v).increment_with_limits mx = Zoom.Value w ∧ w ≤ mx := by
  refine ⟨if v < 1 then min (v + 1/10) 1 else min (v + 1) mx, rfl, ?_⟩
  split_ifs
  · exact le_trans (min_le_right _ _) hmx
  · exact min_le_right _ _

/-- Iterated increments from a numeric value within the bound stay numeric and
at or below the configured maximum whenever that maximum is at least 1. -/
lemma increment_iter_le (mx v : ℚ) (hmx : 1 ≤ mx) (hv : v ≤ mx) (k : ℕ) :
    ∃ w, (fun z => z.increment_with_limits mx)^[k] (Zoom.Value v) = Zoom.Value w
      ∧ w ≤ mx := by
  induction k with
  | zero => exact ⟨v, rfl, hv⟩
  | succ k ih =>
      obtain ⟨w, hw, _⟩ := ih
      obtain ⟨w', hw', hle'⟩ := increment_step_le mx w hmx
      refine ⟨w', ?_, hle'⟩
      rw [Function.iterate_succ_apply', hw]
      exact hw'

/-- One decrement step from a numeric value at or above the configured minimum
either collapses to full view or stays numeric at or above that minimum,
whenever that minimum is at most 1. -/
lemma decrement_step_ge (mn w : ℚ) (hmn : mn ≤ 1) :
    (Zoom.Value w).decrement_with_limits mn = Zoom.Full ∨
    ∃ w', (Zoom.Value w).decrement_with_limits mn = Zoom.Value w' ∧ mn ≤ w' := by
  by_cases h1 : w ≤ mn
  · left; simp only [Zoom.decrement_with_limits, if_pos h1]
  · by_cases h2 : w ≤ 1
    · by_cases h3 : max (w - 1/10) mn ≤ mn
      · left
        simp only [Zoom.decrement_with_limits, if_neg h1, if_pos h2, if_pos h3]
      · right
        exact ⟨max (w - 1/10) mn,
          by simp only [Zoom.decrement_with_limits, if_neg h1, if_pos h2, if_neg h3],
          le_max_right _ _⟩
    · right
      exact ⟨max (w - 1) 1,
        by simp only [Zoom.decrement_with_limits, if_neg h1, if_neg h2],
        le_trans hmn (le_max_right _ _)⟩

/-- Iterated decrements from a numeric value at or above the minimum either
collapse to full view or stay numeric at or above the minimum, whenever that
minimum is at most 1. -/
lemma decrement_iter_ge (mn v : ℚ) (hmn : mn ≤ 1) (hv : mn ≤ v) (k : ℕ) :
    (fun z => z.decrement_with_limits mn)^[k] (Zoom.Value v) = Zoom.Full ∨
    ∃ w, (fun z => z.decrement_with_limits mn)^[k] (Zoom.Value v) = Zoom.Value w
      ∧ mn ≤ w := by
  induction k with
  | zero => right; exact ⟨v, rfl, hv⟩
  | succ k ih =>
      rcases ih with hfull | ⟨w, hw, hge⟩
      · left; rw [Function.iterate_succ_apply', hfull]; rfl
      · rcases decrement_step_ge mn w hmn with h | ⟨w', hw', hge'⟩
        · left; rw [Function.iterate_succ_apply', hw]; exact h
        · right
          exact ⟨w', by rw [Function.iterate_succ_apply', hw]; exact hw', hge'⟩

/-- Claim C2 counterexample: under a configured minimum of 1/2 (and maximum
10), `increment_with_limits` applied to full view returns the hard-coded
`Zoom::Value(0.1)`, not the configured minimum bound 1/2. -/
theorem zoom_full_view_boundary_cex :
    Zoom.increment_with_limits Zoom.Full 10 = Zoom.Value (1/10)
      ∧ Zoom.increment_with_limits Zoom.Full 10 ≠ Zoom.Value (1/2) := by
  refine ⟨rfl, ?_⟩
  norm_num [Zoom.increment_with_limits]

/-- Claim C2 (amended): `increment_with_limits` applied to full view returns
the fixed default minimum `Zoom::Value(0.1)` for every configured maximum —
this equals the configured minimum only when that minimum is 0.1 — while
`decrement_with_limits` applied to the minimum value yields full view for
every configured minimum. -/
theorem zoom_full_view_boundary_amended :
    (∀ mx : ℚ, Zoom.increment_with_limits Zoom.Full mx = Zoom.Value (1/10))
      ∧ (∀ mn : ℚ, Zoom.decrement_with_limits (Zoom.Value mn) mn = Zoom.Full) := by
  constructor
  · intro mx; rfl
  · intro mn; simp [Zoom.decrement_with_limits]

/-- Claim C5 counterexample: with configured bounds [2, 10], the numeric value
5/2 lies within them, yet a single `decrement_with_limits(2)` yields the
numeric factor 3/2 < 2 — strictly below the configured minimum and not the
full-view sentinel. -/
theorem zoom_limits_cex :
    Zoom.decrement_with_limits (Zoom.Value (5/2)) 2 = Zoom.Value (3/2)
      ∧ (3/2 : ℚ) < 2 ∧ (2 : ℚ) ≤ 5/2 ∧ (5/2 : ℚ) ≤ 10 := by
  norm_num [Zoom.decrement_with_limits]

/-- Claim C5 (amended): provided the configured maximum is at least 1 and the
configured minimum is at most 1, starting from any numeric value within
[min, max], iterated `increment_with_limits(max)` never yields a numeric
factor above max and iterated `decrement_with_limits(min)` never yields a
numeric factor below min (crossing below min collapses to full view). -/
theorem zoom_limits_amended (mn mx v wi wd : ℚ) (k j : ℕ)
    (hmn : mn ≤ 1) (hmx : 1 ≤ mx) (hv1 : mn ≤ v) (hv2 : v ≤ mx)
    (hinc : (fun z => z.increment_with_limits mx)^[k] (Zoom.Value v)
        = Zoom.Value wi)
    (hdec : (fun z => z.decrement_with_limits mn)^[j] (Zoom.Value v)
        = Zoom.Value wd) :
    wi ≤ mx ∧ mn ≤ wd := by
  constructor
  · obtain ⟨w, hw, hwle⟩ := increment_iter_le mx v hmx hv2 k
    rw [hinc] at hw
    injection hw with h
    exact h ▸ hwle
  · rcases decrement_iter_ge mn v hmn hv1 j with h | ⟨w, hw, hge⟩
    · rw [hdec] at h
      exact absurd h (by simp)
    · rw [hdec] at hw
      injection hw with h
      exact h ▸ hge

/-- Witness for C5 (amended): with bounds [0.1, 10], three increments from 1
give the numeric factor 4 ≤ 10 and three decrements give 7/10 ≥ 1/10. -/
theorem zoom_limits_amended_witness : (4 : ℚ) ≤ 10 ∧ (1 : ℚ)/10 ≤ 7/10 :=
  zoom_limits_amended (1/10) 10 1 4 (7/10) 3 3 (by norm_num) (by norm_num)
    (by norm_num) (by norm_num)
    (by norm_num [Function.iterate_succ_apply', Zoom.increment_with_limits])
    (by norm_num [Function.iterate_succ_apply', Zoom.decrement_with_limits])

/-- Claim C6: for every total item count, zoom state and base window size,
`calculate_visible_range` returns a window contained in [0, N]; full view
returns (0, N); zero items yield a zero count. -/
theorem visible_range_containment (N : ℕ) (zoom : Zoom) (B : ℚ) :
    0 ≤ (calculate_visible_range N zoom B).1
      ∧ (calculate_visible_range N zoom B).2 ≤ N
      ∧ (calculate_visible_range N zoom B).1 + (calculate_visible_range N zoom B).2 ≤ N
      ∧ calculate_visible_range N Zoom.Full B = (0, N)
      ∧ (calculate_visible_range 0 zoom B).2 = 0 := by
  have h2 : ∀ M : ℕ, (calculate_visible_range M zoom B).2 ≤ M := by
    intro M
    cases zoom with
    | Full => simp [calculate_visible_range]
    | Value z =>
        simp only [calculate_visible_range]
        split_ifs <;> exact min_le_right _ _
  have h3 : (calculate_visible_range N zoom B).1
      + (calculate_visible_range N zoom B).2 ≤ N := by
    cases zoom with
    | Full => simp [calculate_visible_range]
    | Value z =>
        simp only [calculate_visible_range]
        by_cases h : 1 ≤ z
        · simp only [if_pos h]
          have hc : min (ratToUsize (max (B / z) 5)) N ≤ N := min_le_right _ _
          split_ifs <;> omega
        · simp only [if_neg h]
          have hc : min (ratToUsize (B / z)) N ≤ N := min_le_right _ _
          split_ifs <;> omega
  have h5 : (calculate_visible_range 0 zoom B).2 = 0 := Nat.le_zero.mp (h2 0)
  exact ⟨Nat.zero_le _, h2 N, h3, rfl, h5⟩

/-- Claim C7 (spec-modelled binning engine): 10 samples [1..10] with 5 target
bins and the Average aggregator produce exactly 5 bins of width 2 with outputs
[1.5, 3.5, 5.5, 7.5, 9.5] in original order; with 4 target bins the last bin
is the short sub-slice [10] and Average divides by its length 1 (yielding 10),
not by the nominal bin width 3. -/
theorem binning_average_scenario :
    binAggregate .Average 5 [1, 2, 3, 4, 5, 6, 7, 8, 9, 10]
        = [3/2, 7/2, 11/2, 15/2, 19/2]
      ∧ (binChunks ((10 + max 1 (min 5 10) - 1) / max 1 (min 5 10))
            [1, 2, 3, 4, 5, 6, 7, 8, 9, 10]).map List.length
          = [2, 2, 2, 2, 2]
      ∧ binAggregate .Average 4 [1, 2, 3, 4, 5, 6, 7, 8, 9, 10]
          = [2, 5, 8, 10] := by
  norm_num [binAggregate, binChunks, binChunksAux, BinAggregator.aggregate]

/-- The float-to-usize cast is monotone. -/
lemma ratToUsize_mono {p q : ℚ} (h : p ≤ q) : ratToUsize p ≤ ratToUsize q :=
  Int.toNat_le_toNat (Int.floor_le_floor h)

/-- The cast of a natural number literal comes back out unchanged. -/
lemma ratToUsize_natCast (n : ℕ) : ratToUsize ((n : ℕ) : ℚ) = n := by
  simp [ratToUsize]

/-- Truncation commutes with the `max 5` clamp (5 being an integer). -/
lemma ratToUsize_max_five (q : ℚ) :
    ratToUsize (max q 5) = max (ratToUsize q) 5 := by
  have h5 : ratToUsize 5 = 5 := by norm_num [ratToUsize]; rfl
  rcases le_total q 5 with h | h
  · rw [max_eq_right h, max_eq_right]
    · exact h5
    · exact h5 ▸ ratToUsize_mono h
  · rw [max_eq_left h, max_eq_left]
    exact h5 ▸ ratToUsize_mono h

/-- Truncation commutes with the `min n` clamp for a natural bound `n`. -/
lemma ratToUsize_min_natCast (q : ℚ) (n : ℕ) :
    ratToUsize (min q (n : ℚ)) = min (ratToUsize q) n := by
  rcases le_total q (n : ℚ) with h | h
  · rw [min_eq_left h, min_eq_left]
    exact (ratToUsize_natCast n) ▸ ratToUsize_mono h
  · rw [min_eq_right h, min_eq_right, ratToUsize_natCast]
    exact (ratToUsize_natCast n) ▸ ratToUsize_mono h

/-- Within the kept prefix, taking a list leaves every element at its original
index (and out-of-range lookups agree on the default). -/
lemma getD_take (l : List ℚ) (n t : ℕ) (h : t < n) :
    (l.take n).getD t 0 = l.getD t 0 := by
  induction l generalizing n t with
  | nil => simp
  | cons a l ih =>
      cases n with
      | zero => exact absurd h (Nat.not_lt_zero t)
      | succ n =>
          cases t with
          | zero => simp
          | succ t => simpa using ih n t (Nat.lt_of_succ_lt_succ h)

/-- Claim C4 counterexample: the code truncates `B / z` where the claim
rounds — at `N = 1000`, `B = 50`, `z = 3` the claim gives
`max(5, round(50/3)) = 17` but `calculate_visible_range` returns 16 — and the
bar chart's own computation multiplies by the zoom factor instead of dividing:
at `B = 50`, `z = 2` the claim gives 25 visible items but the bar chart
computes 100. -/
theorem visible_count_formula_cex :
    claimVisibleCount 1000 3 50 = 17
      ∧ (calculate_visible_range 1000 (Zoom.Value 3) 50).2 = 16
      ∧ barVisibleBars 50 2 = 100
      ∧ claimVisibleCount 1000 2 50 = 25 := by
  refine ⟨?_, ?_, ?_, ?_⟩
  · norm_num [claimVisibleCount, ratRound, round_eq]; decide
  · norm_num [calculate_visible_range, ratToUsize]; decide
  · norm_num [barVisibleBars, ratToUsize]; decide
  · norm_num [claimVisibleCount, ratRound, round_eq]; decide

/-- Claim C4 (amended): the code truncates `B / z` (floor) instead of
rounding.  The shared calculator returns
`count = min(N, max(5, floor(B/z)))` for `z ≥ 1` and `min(N, floor(B/z))`
for `z < 1`, with `start = N - count`; the line chart computes the same count
without the `N` clamp in the `z ≥ 1` case, and its start index is
`n - min(maxVisible, n)`; the bar chart's own computation is `floor(B * z)` —
weakly increasing in the zoom factor, so zooming in shows more items there,
not fewer — and its drawn window is the prefix `take(visible_bars)` of the
data: the t-th drawn bar is datapoint t, so the window starts at index 0 (the
oldest data), not at `max(0, N - count)`. -/
theorem visible_count_formula_amended (N n mv : ℕ) (z B z1 z2 : ℚ)
    (dps : List ℚ) (t : ℕ) (hB : 0 ≤ B) (hz12 : z1 ≤ z2) :
    (1 ≤ z → calculate_visible_range N (Zoom.Value z) B
        = (N - min (max (ratToUsize (B / z)) 5) N,
           min (max (ratToUsize (B / z)) 5) N))
      ∧ (z < 1 → calculate_visible_range N (Zoom.Value z) B
          = (N - min (ratToUsize (B / z)) N, min (ratToUsize (B / z)) N))
      ∧ (1 ≤ z → lineMaxVisiblePoints B (Zoom.Value z) n
          = max (ratToUsize (B / z)) 5)
      ∧ (z < 1 → lineMaxVisiblePoints B (Zoom.Value z) n
          = min (ratToUsize (B / z)) n)
      ∧ lineStartIndex (Zoom.Value z) n mv = n - min mv n
      ∧ barVisibleBars B z1 ≤ barVisibleBars B z2
      ∧ (t < barVisibleBars B z →
          (barDrawnWindow dps (barVisibleBars B z)).getD t 0 = dps.getD t 0) := by
  refine ⟨?_, ?_, ?_, ?_, ?_, ?_, ?_⟩
  · intro h
    simp only [calculate_visible_range, if_pos h, ratToUsize_max_five]
    have hc : min (max (ratToUsize (B / z)) 5) N ≤ N := min_le_right _ _
    split_ifs with hgt
    · rfl
    · have : min (max (ratToUsize (B / z)) 5) N = N := by omega
      rw [this]
      simp
  · intro h
    simp only [calculate_visible_range, if_neg (not_le.mpr h)]
    have hc : min (ratToUsize (B / z)) N ≤ N := min_le_right _ _
    split_ifs with hgt
    · rfl
    · have : min (ratToUsize (B / z)) N = N := by omega
      rw [this]
      simp
  · intro h
    simp only [lineMaxVisiblePoints, if_pos h, ratToUsize_max_five]
  · intro h
    simp only [lineMaxVisiblePoints, if_neg (not_le.mpr h), ratToUsize_min_natCast]
  · simp only [lineStartIndex]
    split_ifs <;> omega
  · exact ratToUsize_mono (mul_le_mul_of_nonneg_left hz12 hB)
  · intro ht
    exact getD_take dps (barVisibleBars B z) t ht

/-- Witness for C4 (amended) at `N = 1000`, `n = 80`, `mv = 30`, `z = 3`,
`B = 50`, `z1 = 2 ≤ z2 = 3`, data [4, 8, 15] and drawn-bar index `t = 1`. -/
theorem visible_count_formula_amended_witness :
    ((1 : ℚ) ≤ 3 → calculate_visible_range 1000 (Zoom.Value 3) 50
        = (1000 - min (max (ratToUsize ((50 : ℚ) / 3)) 5) 1000,
           min (max (ratToUsize ((50 : ℚ) / 3)) 5) 1000))
      ∧ ((3 : ℚ) < 1 → calculate_visible_range 1000 (Zoom.Value 3) 50
          = (1000 - min (ratToUsize ((50 : ℚ) / 3)) 1000,
             min (ratToUsize ((50 : ℚ) / 3)) 1000))
      ∧ ((1 : ℚ) ≤ 3 → lineMaxVisiblePoints 50 (Zoom.Value 3) 80
          = max (ratToUsize ((50 : ℚ) / 3)) 5)
      ∧ ((3 : ℚ) < 1 → lineMaxVisiblePoints 50 (Zoom.Value 3) 80
          = min (ratToUsize ((50 : ℚ) / 3)) 80)
      ∧ lineStartIndex (Zoom.Value 3) 80 30 = 80 - min 30 80
      ∧ barVisibleBars 50 2 ≤ barVisibleBars 50 3
      ∧ (1 < barVisibleBars 50 3 →
          (barDrawnWindow [4, 8, 15] (barVisibleBars 50 3)).getD 1 0
            = [4, 8, 15].getD 1 0) :=
  visible_count_formula_amended 1000 80 30 3 50 2 3 [4, 8, 15] 1
    (by norm_num) (by norm_num)

/-- Claim C1 (the bar chart violates it): the bar chart's `update` contains no
`cache.clear()` call on any path — evaluated at a wheel scroll over the bounds
that changes the zoom from 1 to 2, and at a cursor move that sets the hovered
bar to 7, the cache-clear flag is `false` both times. -/
theorem bar_update_never_clears_cache :
    BarGraph.update ⟨50, 1/10, 10, none⟩ ⟨Zoom.Value 1, none⟩
        (.WheelScrolled 1) ⟨0, 0, 650, 350⟩ (some ⟨100, 100⟩)
      = ⟨⟨Zoom.Value 2, none⟩,
          some (.publish (.ZoomChanged (Zoom.Value 2))), false⟩
    ∧ BarGraph.update ⟨50, 1/10, 10, none⟩ ⟨Zoom.Value 1, none⟩
        .CursorMoved ⟨0, 0, 650, 350⟩ (some ⟨100, 100⟩)
      = ⟨⟨Zoom.Value 1, some 7⟩, some (.publish (.BarHovered 7)), false⟩ := by
  constructor
  · norm_num [BarGraph.update, is_over, RectangleQ.contains,
      Zoom.increment_with_limits]
  · have h50 : barVisibleBars 50 (Zoom.value_or (Zoom.Value 1) 1) = 50 := by
      norm_num [barVisibleBars, Zoom.value_or, ratToUsize]; rfl
    have h7 : barHitIndex 100 650 50 = 7 := by
      norm_num [barHitIndex, ratToUsize]; rfl
    norm_num [BarGraph.update, BarGraph.effective_zoom, position_in,
      RectangleQ.contains, h50, h7]
    exact fun h => Option.noConfusion h

/-- Claim C3 counterexample: on the bar chart with an external zoom override
of `Value 2`, a wheel scroll over the bounds still mutates the widget state's
zoom (from `Value 1` to `Value 2`) and still publishes a `ZoomChanged`
notification. -/
theorem bar_scroll_ignores_external_zoom_cex :
    (BarGraph.update ⟨50, 1/10, 10, some (Zoom.Value 2)⟩ ⟨Zoom.Value 1, none⟩
        (.WheelScrolled 1) ⟨0, 0, 650, 350⟩ (some ⟨100, 100⟩)).state.zoom
      = Zoom.Value 2
    ∧ (BarGraph.update ⟨50, 1/10, 10, some (Zoom.Value 2)⟩ ⟨Zoom.Value 1, none⟩
        (.WheelScrolled 1) ⟨0, 0, 650, 350⟩ (some ⟨100, 100⟩)).action
      = some (.publish (.ZoomChanged (Zoom.Value 2)))
    ∧ Zoom.Value 2 ≠ Zoom.Value 1 := by
  refine ⟨?_, ?_, by norm_num⟩ <;>
    norm_num [BarGraph.update, is_over, RectangleQ.contains,
      Zoom.increment_with_limits]

/-- Claim C3 (amended): only the line chart treats external-zoom mode as
read-only for scroll — with an external zoom set, its wheel handler leaves the
state untouched, publishes nothing and clears nothing; the bar chart's wheel
handler is oblivious to the override: its result is identical whether the
external zoom is set or not (it steps the internal zoom and publishes). -/
theorem scroll_under_external_zoom_amended (cfgL : LineGraph) (cfgB : BarGraph)
    (z zb : Zoom) (sL : LineGraphState) (sB : BarGraphState) (y : ℚ)
    (bounds : RectangleQ) (cursor : Cursor)
    (hext : cfgL.external_zoom = some z) :
    cfgL.update sL (.WheelScrolled y) bounds cursor = ⟨sL, none, false⟩
      ∧ BarGraph.update ⟨cfgB.base_bars, cfgB.zoom_min, cfgB.zoom_max, some zb⟩
            sB (.WheelScrolled y) bounds cursor
        = BarGraph.update ⟨cfgB.base_bars, cfgB.zoom_min, cfgB.zoom_max, none⟩
            sB (.WheelScrolled y) bounds cursor := by
  constructor
  · simp [LineGraph.update, hext]
  · rfl

/-- Witness for C3 (amended) at a concrete configuration, state and scroll. -/
theorem scroll_under_external_zoom_amended_witness :
    LineGraph.update ⟨50, 1/10, 10, some (Zoom.Value 2), [0, 1]⟩
        ⟨Zoom.Value 1, none⟩ (.WheelScrolled 1) ⟨0, 0, 650, 350⟩
        (some ⟨100, 100⟩)
      = ⟨⟨Zoom.Value 1, none⟩, none, false⟩
    ∧ BarGraph.update ⟨50, 1/10, 10, some (Zoom.Value 2)⟩ ⟨Zoom.Value 1, none⟩
        (.WheelScrolled 1) ⟨0, 0, 650, 350⟩ (some ⟨100, 100⟩)
      = BarGraph.update ⟨50, 1/10, 10, none⟩ ⟨Zoom.Value 1, none⟩
        (.WheelScrolled 1) ⟨0, 0, 650, 350⟩ (some ⟨100, 100⟩) :=
  scroll_under_external_zoom_amended ⟨50, 1/10, 10, some (Zoom.Value 2), [0, 1]⟩
    ⟨50, 1/10, 10, none⟩ (Zoom.Value 2) (Zoom.Value 2) ⟨Zoom.Value 1, none⟩
    ⟨Zoom.Value 1, none⟩ 1 ⟨0, 0, 650, 350⟩ (some ⟨100, 100⟩) rfl

/-- Claim C10 counterexample: with the configured minimum 1/10 and the state
zoom at the numeric value 1/10 — not strictly above the minimum — a cursor
move over the first rendered point of the data [0, 1] sets the hovered index
to 0: the live line chart gates hover on `is_value()`, not on
`zoom_factor > zoom_min`. -/
theorem line_hover_gate_cex :
    (LineGraph.update ⟨50, 1/10, 10, none, [0, 1]⟩ ⟨Zoom.Value (1/10), none⟩
        .CursorMoved ⟨0, 0, 650, 350⟩ (some ⟨40, 310⟩)).state.hovered_point
      = some 0
    ∧ ¬ ((1 : ℚ)/10 > (1 : ℚ)/10) := by
  constructor
  · norm_num [LineGraph.update, LineGraph.effective_zoom, Zoom.is_value,
      position_in, RectangleQ.contains, LineGraph.find_nearest_point,
      lineVisible, lineMaxVisiblePoints, lineStartIndex, ratToUsize,
      listMin, listMax, nearestFold, nearestStep, lineHitD2, hitPointPosition,
      sqDist, List.range_succ]
    simp
  · norm_num

/-- Claim C10 (amended): the line chart enables hover exactly when the
effective zoom is a numeric value — including values at or below the
configured minimum: at full view a cursor move never sets a hovered index and
clears any previously set one, and at any numeric zoom the hovered index after
a cursor move is the hit-test result (or `none` when the cursor is outside the
bounds). -/
theorem line_hover_gate_amended (cfg : LineGraph) (state : LineGraphState)
    (bounds : RectangleQ) (cursor : Cursor) :
    ((cfg.effective_zoom state).is_full = true →
      (cfg.update state .CursorMoved bounds cursor).state.hovered_point = none)
    ∧ ((cfg.effective_zoom state).is_value = true →
      (cfg.update state .CursorMoved bounds cursor).state.hovered_point
        = (match position_in cursor bounds with
           | some p => cfg.find_nearest_point p bounds state
           | none => none)) := by
  constructor
  · intro h
    have hv : (cfg.effective_zoom state).is_value = false := by
      cases hz : cfg.effective_zoom state <;>
        simp_all [Zoom.is_full, Zoom.is_value]
    simp only [LineGraph.update, hv, Bool.false_eq_true, if_false]
    split_ifs with hs
    · rfl
    · exact Option.not_isSome_iff_eq_none.mp hs
  · intro h
    simp only [LineGraph.update, h, if_true]
    cases hp : position_in cursor bounds with
    | some q =>
        simp only
        by_cases he : state.hovered_point = cfg.find_nearest_point q bounds state
        · rw [if_neg (by simpa using he)]
          exact he
        · rw [if_pos (by simpa using he)]
          cases hn : cfg.find_nearest_point q bounds state <;> simp [hn]
    | none =>
        simp only
        split_ifs with hs
        · rfl
        · exact Option.not_isSome_iff_eq_none.mp hs

/-- Witness for C10 (amended): with an external full-view zoom, a cursor move
clears the previously hovered point. -/
theorem line_hover_gate_amended_witness :
    (LineGraph.update ⟨50, 1/10, 10, some Zoom.Full, [0, 1]⟩
        ⟨Zoom.Value 1, some 0⟩ .CursorMoved ⟨0, 0, 650, 350⟩
        (some ⟨40, 310⟩)).state.hovered_point = none :=
  (line_hover_gate_amended ⟨50, 1/10, 10, some Zoom.Full, [0, 1]⟩
      ⟨Zoom.Value 1, some 0⟩ ⟨0, 0, 650, 350⟩ (some ⟨40, 310⟩)).1 rfl

/-- Claim C8: for a cursor inside the bounds and a numeric effective zoom,
the bar chart's hit test computes
`index = floor(cursor.x / (bounds.width / visible_bars))` with
`visible_bars = floor(base_bars * z)`, sets the hovered bar to that index
exactly when it is below `visible_bars` (clearing it otherwise), and any
published `BarHovered` notification carries exactly that index. -/
theorem bar_hit_test_spec (cfg : BarGraph) (state : BarGraphState)
    (bounds : RectangleQ) (p : PointQ) (z : ℚ) (m : ℕ)
    (hin : bounds.contains p = true)
    (hz : cfg.effective_zoom state = Zoom.Value z) :
    ((BarGraph.update cfg state .CursorMoved bounds (some p)).state.hovered_bar
        = if barHitIndex (p.x - bounds.x) bounds.width
              (barVisibleBars cfg.base_bars z) < barVisibleBars cfg.base_bars z
          then some (barHitIndex (p.x - bounds.x) bounds.width
              (barVisibleBars cfg.base_bars z))
          else none)
    ∧ ((BarGraph.update cfg state .CursorMoved bounds (some p)).action
          = some (.publish (.BarHovered m)) →
        m = barHitIndex (p.x - bounds.x) bounds.width
            (barVisibleBars cfg.base_bars z)
          ∧ m < barVisibleBars cfg.base_bars z) := by
  have hpos : position_in (some p) bounds = some ⟨p.x - bounds.x, p.y - bounds.y⟩ := by
    simp [position_in, hin]
  simp only [BarGraph.update, hpos, hz, Zoom.value_or]
  constructor
  · split_ifs with h1 h2 h3
    · rfl
    · exact not_not.mp h2
    · rfl
    · exact Option.not_isSome_iff_eq_none.mp (by simpa using h3)
  · split_ifs with h1 h2 h3
    · intro ha
      simp only [Option.some.injEq, CanvasAction.publish.injEq,
        BarInteraction.BarHovered.injEq] at ha
      exact ⟨ha.symm, ha ▸ h1⟩
    · intro ha; exact absurd ha (by simp)
    · intro ha; exact absurd ha (by simp)
    · intro ha; exact absurd ha (by simp)

/-- Witness for C8: a cursor at `x = bar_width * 2.5` among 10 visible bars
(base 10 bars at zoom 1 over a 650-wide chart, bar width 65, cursor x 162.5)
hovers bar index 2. -/
theorem bar_hit_test_spec_witness :
    (BarGraph.update ⟨10, 1/10, 10, none⟩ ⟨Zoom.Value 1, none⟩ .CursorMoved
        ⟨0, 0, 650, 350⟩ (some ⟨325/2, 100⟩)).state.hovered_bar = some 2 :=
  ((bar_hit_test_spec ⟨10, 1/10, 10, none⟩ ⟨Zoom.Value 1, none⟩
      ⟨0, 0, 650, 350⟩ ⟨325/2, 100⟩ 1 0
      (by norm_num [RectangleQ.contains]) rfl).1).trans
    (by
      have hvb : barVisibleBars 10 1 = 10 := by
        norm_num [barVisibleBars, ratToUsize]; rfl
      have hidx : barHitIndex ((325/2 : ℚ) - 0) 650 10 = 2 := by
        norm_num [barHitIndex, ratToUsize]; rfl
      rw [hvb, hidx]
      norm_num)

/-- Squared distances are nonnegative. -/
lemma sqDist_nonneg (p q : PointQ) : 0 ≤ sqDist p q :=
  add_nonneg (sq_nonneg _) (sq_nonneg _)

/-- The squared distance from a point to itself is zero. -/
lemma sqDist_self (p : PointQ) : sqDist p p = 0 := by simp [sqDist]

/-- Zero squared distance forces coordinate-wise equality. -/
lemma sqDist_eq_zero {p q : PointQ} (h : sqDist p q = 0) :
    p.x = q.x ∧ p.y = q.y := by
  simp only [sqDist] at h
  have hx2 : (p.x - q.x) ^ 2 = 0 :=
    le_antisymm (by nlinarith [sq_nonneg (p.y - q.y)]) (sq_nonneg _)
  have hy2 : (p.y - q.y) ^ 2 = 0 :=
    le_antisymm (by nlinarith [sq_nonneg (p.x - q.x)]) (sq_nonneg _)
  constructor
  · exact sub_eq_zero.mp (pow_eq_zero_iff two_ne_zero |>.mp hx2)
  · exact sub_eq_zero.mp (pow_eq_zero_iff two_ne_zero |>.mp hy2)

/-- With a positive chart width, distinct visible indices are rendered at
distinct x coordinates, so the drawn positions determine the index. -/
lemma lineDrawPoint_x_inj (cfg : LineGraph) (bounds : RectangleQ)
    (state : LineGraphState) (hcw : 0 < bounds.width - 2 * 40) {t i : ℕ}
    (h : (lineDrawPoint cfg bounds state t).x = (lineDrawPoint cfg bounds state i).x) :
    t = i := by
  simp only [lineDrawPoint, drawPointPosition] at h
  have hm : (0 : ℚ)
      < ((max ((lineVisible cfg state).length - 1) 1 : ℕ) : ℚ) := by
    have : 1 ≤ max ((lineVisible cfg state).length - 1) 1 := le_max_right _ _
    exact_mod_cast Nat.lt_of_lt_of_le Nat.zero_lt_one this
  have h' : ((t : ℚ) / ((max ((lineVisible cfg state).length - 1) 1 : ℕ) : ℚ))
        * (bounds.width - 2 * 40)
      = ((i : ℚ) / ((max ((lineVisible cfg state).length - 1) 1 : ℕ) : ℚ))
        * (bounds.width - 2 * 40) := by linarith
  have h'' := mul_right_cancel₀ (ne_of_gt hcw) h'
  have hm' : ((max ((lineVisible cfg state).length - 1) 1 : ℕ) : ℚ) ≠ 0 :=
    ne_of_gt hm
  field_simp [hm'] at h''
  exact_mod_cast h''

/-- Invariant of the nearest-point scan: after scanning indices below `n`, the
accumulator is `none` exactly when no index is within the 400 squared-pixel
threshold, and otherwise holds an in-range index within the threshold whose
distance is minimal among all scanned indices. -/
lemma nearestFold_inv (d2 : ℕ → ℚ) (n : ℕ) :
    (nearestFold d2 n = none ∧ ∀ j, j < n → ¬ d2 j ≤ 400)
  ∨ (∃ i, nearestFold d2 n = some (i, d2 i) ∧ i < n ∧ d2 i ≤ 400
      ∧ ∀ j, j < n → d2 i ≤ d2 j) := by
  induction n with
  | zero =>
      left
      exact ⟨rfl, fun j hj => absurd hj (Nat.not_lt_zero j)⟩
  | succ n ih =>
      have hstep : nearestFold d2 (n + 1) = nearestStep d2 (nearestFold d2 n) n := by
        simp [nearestFold, List.range_succ]
      rcases ih with ⟨hnone, hall⟩ | ⟨i, hsome, hin, h400, hmin⟩
      · by_cases h : d2 n ≤ 400
        · right
          refine ⟨n, ?_, Nat.lt_succ_self n, h, ?_⟩
          · rw [hstep, hnone]
            simp [nearestStep, h]
          · intro j hj
            rcases Nat.lt_succ_iff_lt_or_eq.mp hj with hj' | hj'
            · exact le_of_lt (lt_of_le_of_lt h (lt_of_not_le (hall j hj')))
            · exact hj' ▸ le_refl _
        · left
          refine ⟨?_, ?_⟩
          · rw [hstep, hnone]
            simp [nearestStep, h]
          · intro j hj
            rcases Nat.lt_succ_iff_lt_or_eq.mp hj with hj' | hj'
            · exact hall j hj'
            · exact hj' ▸ h
      · by_cases h : d2 n ≤ 400 ∧ d2 n < d2 i
        · right
          refine ⟨n, ?_, Nat.lt_succ_self n, h.1, ?_⟩
          · rw [hstep, hsome]
            simp [nearestStep, h.1, h.2]
          · intro j hj
            rcases Nat.lt_succ_iff_lt_or_eq.mp hj with hj' | hj'
            · exact le_trans (le_of_lt h.2) (hmin j hj')
            · exact hj' ▸ le_refl _
        · right
          refine ⟨i, ?_, Nat.lt_succ_of_lt hin, h400, ?_⟩
          · rw [hstep, hsome]
            have hguard : ¬ ((decide (d2 n ≤ 400)
                && decide (d2 n < d2 i)) = true) := by
              simpa [Bool.and_eq_true, decide_eq_true_eq] using h
            simp only [nearestStep]
            rw [if_neg hguard]
          · intro j hj
            rcases Nat.lt_succ_iff_lt_or_eq.mp hj with hj' | hj'
            · exact hmin j hj'
            · subst hj'
              by_cases hn : d2 j ≤ 400
              · push_neg at h
                exact le_of_not_lt fun hc => absurd (h hn) (not_le.mpr hc)
              · exact le_trans h400 (le_of_lt (lt_of_not_le hn))

/-- Under the guards that the hit test actually reaches its scan (nonempty
visible window, nonzero value range), `find_nearest_point` is the nearest scan
over the squared distances to the positions the draw code renders — this is
exactly the hit-test/draw placement-formula agreement. -/
lemma find_nearest_point_eq (cfg : LineGraph) (p : PointQ) (bounds : RectangleQ)
    (state : LineGraphState)
    (hvis : (lineVisible cfg state).isEmpty = false)
    (hrange : listMax (lineVisible cfg state) - listMin (lineVisible cfg state) ≠ 0) :
    cfg.find_nearest_point p bounds state
      = (nearestFold (fun t => sqDist p (lineDrawPoint cfg bounds state t))
          (lineVisible cfg state).length).map Prod.fst := by
  have hdp : cfg.datapoints.isEmpty = false := by
    rcases hd : cfg.datapoints with _ | ⟨a, l⟩
    · exfalso
      have hv : lineVisible cfg state = [] := by simp [lineVisible, hd]
      rw [hv] at hvis
      simp at hvis
    · rfl
  simp only [LineGraph.find_nearest_point, hdp, hvis, hrange,
    Bool.false_eq_true, if_false, if_neg]
  rfl

/-- Claim C9: the line chart's hit-tester returns an index only when that
index is a visible point of minimal squared distance to the cursor within the
400 = 20² squared-pixel threshold; whenever some visible point is within the
threshold it returns an index; and — placement formulas of draw and hit-test
agreeing — a cursor placed exactly at a rendered point's pixel center returns
that point's index (positive chart width keeps rendered positions distinct). -/
theorem line_hit_test_spec (cfg : LineGraph) (state : LineGraphState)
    (bounds : RectangleQ) (p : PointQ) (i j k : ℕ)
    (hvis : (lineVisible cfg state).isEmpty = false)
    (hrange : listMax (lineVisible cfg state) - listMin (lineVisible cfg state) ≠ 0)
    (hcw : 0 < bounds.width - 2 * 40) :
    (cfg.find_nearest_point p bounds state = some i →
        i < (lineVisible cfg state).length
          ∧ sqDist p (lineDrawPoint cfg bounds state i) ≤ 400
          ∧ (j < (lineVisible cfg state).length →
              sqDist p (lineDrawPoint cfg bounds state i)
                ≤ sqDist p (lineDrawPoint cfg bounds state j)))
    ∧ (k < (lineVisible cfg state).length →
        sqDist p (lineDrawPoint cfg bounds state k) ≤ 400 →
        cfg.find_nearest_point p bounds state ≠ none)
    ∧ (i < (lineVisible cfg state).length →
        p = lineDrawPoint cfg bounds state i →
        cfg.find_nearest_point p bounds state = some i) := by
  have heq := find_nearest_point_eq cfg p bounds state hvis hrange
  rcases nearestFold_inv (fun t => sqDist p (lineDrawPoint cfg bounds state t))
      (lineVisible cfg state).length with ⟨hnone, hall⟩ | ⟨t, hsome, htn, ht400, htmin⟩
  · refine ⟨?_, ?_, ?_⟩
    · intro hf
      rw [heq, hnone] at hf
      simp at hf
    · intro hk h4
      exact absurd h4 (hall k hk)
    · intro hi hpe
      have hdi : sqDist p (lineDrawPoint cfg bounds state i) = 0 := by
        rw [← hpe]
        exact sqDist_self p
      exact absurd (hdi.le.trans (by norm_num)) (hall i hi)
  · refine ⟨?_, ?_, ?_⟩
    · intro hf
      rw [heq, hsome] at hf
      simp only [Option.map_some', Option.some.injEq] at hf
      exact ⟨hf ▸ htn, hf ▸ ht400, fun hj => hf ▸ htmin j hj⟩
    · intro _ _
      rw [heq, hsome]
      simp
    · intro hi hpe
      have hdi : sqDist p (lineDrawPoint cfg bounds state i) = 0 := by
        rw [← hpe]
        exact sqDist_self p
      have hle : sqDist p (lineDrawPoint cfg bounds state t) ≤ 0 :=
        hdi ▸ htmin i hi
      have hdt : sqDist p (lineDrawPoint cfg bounds state t) = 0 :=
        le_antisymm hle (sqDist_nonneg _ _)
      have hxt := (sqDist_eq_zero hdt).1
      have hxi := (sqDist_eq_zero hdi).1
      have hti : t = i :=
        lineDrawPoint_x_inj cfg bounds state hcw (hxt ▸ hxi)
      rw [heq, hsome, hti]
      simp

/-- Witness for C9: over the data [0, 1] at zoom 1 on a 650×350 chart, the
cursor placed exactly at the second rendered point's center (610, 40) is
reported as index 1 by the hit-tester. -/
theorem line_hit_test_spec_witness :
    LineGraph.find_nearest_point ⟨50, 1/10, 10, none, [0, 1]⟩ ⟨610, 40⟩
        ⟨0, 0, 650, 350⟩ ⟨Zoom.Value 1, none⟩ = some 1 :=
  (line_hit_test_spec ⟨50, 1/10, 10, none, [0, 1]⟩ ⟨Zoom.Value 1, none⟩
      ⟨0, 0, 650, 350⟩ ⟨610, 40⟩ 1 0 0
      (by norm_num [lineVisible, LineGraph.effective_zoom,
        lineMaxVisiblePoints, lineStartIndex, ratToUsize])
      (by norm_num [lineVisible, LineGraph.effective_zoom,
        lineMaxVisiblePoints, lineStartIndex, ratToUsize, listMin, listMax])
      (by norm_num)).2.2
    (by norm_num [lineVisible, LineGraph.effective_zoom,
      lineMaxVisiblePoints, lineStartIndex, ratToUsize])
    (by norm_num [lineDrawPoint, drawPointPosition, lineVisible,
      LineGraph.effective_zoom, lineMaxVisiblePoints, lineStartIndex,
      ratToUsize, listMin, listMax])
